import Mathlib

/-!
Verification of the color-mapping and interactive-recoloring pipeline of
`build_heatmap.py` (NYC Yellow Taxi Tipping Trends 2015-2022).

The Python source is shallowly embedded: numeric series become `List (Option ℚ)`
(`none` is a missing observation / NaN), the numpy quantile with linear
interpolation becomes `quantileLinear`, the branca `RdYlGn_11` colormap becomes
`rgbaFloats`/`rgbaHexStr`, the legend tick computation becomes
`legendTicksLabels`, and the client-side JavaScript controller
(`showYearAndMetric`, `hideAllYears`, `recolorLayerByMetric`,
`attachHighlightHandlers`) becomes a pure step function on an explicit
`MapState`.
-/

namespace Heatmap

/-- The three metrics offered by the radio panel (`metrics = ["avg_tip",
"med_tip", "avg_rate"]` in the source). -/
inductive Metric
  | avg_tip
  | med_tip
  | avg_rate
deriving DecidableEq, Repr

/-- Insert a value into an already ascending list, keeping it ascending. -/
def insertSorted (x : ℚ) : List ℚ → List ℚ
  | [] => [x]
  | y :: ys => if x ≤ y then x :: y :: ys else y :: insertSorted x ys

/-- Ascending sort (the `np.sort` inside `np.nanquantile`), as a structurally
recursive insertion sort. -/
def sortAsc (l : List ℚ) : List ℚ := l.foldr insertSorted []

/-- `np.nanquantile(arr, q)` with the default linear interpolation, on an
already NaN-free list: sort, take position `q * (n - 1)`, and linearly
interpolate between the two neighbouring order statistics. -/
def quantileLinear (l : List ℚ) (q : ℚ) : ℚ :=
  let s := sortAsc l
  let n := s.length
  let pos := q * ((n : ℚ) - 1)
  let i := (Int.floor pos).toNat
  if i + 1 < n then
    s.getD i 0 + (pos - (Int.floor pos : ℚ)) * (s.getD (i + 1) 0 - s.getD i 0)
  else
    s.getD (n - 1) 0

/-- `robust_range(series, is_rate)` from the source: drop missing observations;
if none remain return `(0.0, 1.0)`; otherwise take the 0.3rd and 99.7th
percentiles, and for rate metrics clamp `vmin` to be non-negative and force
`vmax ≥ vmin + 1`. -/
def robust_range (series : List (Option ℚ)) (is_rate : Bool) : ℚ × ℚ :=
  let arr := series.filterMap id
  if arr.isEmpty then (0, 1)
  else
    let vmin := quantileLinear arr (3 / 1000)
    let vmax := quantileLinear arr (997 / 1000)
    if is_rate then
      let vmin2 := max 0 vmin
      (vmin2, max (vmin2 + 1) vmax)
    else
      (vmin, vmax)

/-- C6: For a rate-like metric, for every input multiset of observations
(including empty and near-constant ones), the domain `(vmin, vmax)` returned by
`robust_range` satisfies `vmin ≥ 0` and `vmax ≥ vmin + 1`. -/
theorem rate_domain_nonneg_and_nondegenerate (series : List (Option ℚ)) :
    0 ≤ (robust_range series true).1 ∧
      (robust_range series true).1 + 1 ≤ (robust_range series true).2 := by
  unfold robust_range
  by_cases h : (series.filterMap id).isEmpty
  · simp [h]
  · simp only [h, if_false, if_true, Bool.false_eq_true]
    constructor
    · exact le_max_left 0 _
    · exact le_max_left _ _

/-- C8: Applied to a series whose observations are all missing, `robust_range`
returns exactly the default domain `(0.0, 1.0)`. -/
theorem all_missing_series_default_domain (series : List (Option ℚ))
    (is_rate : Bool) (h : ∀ x ∈ series, x = none) :
    robust_range series is_rate = (0, 1) := by
  have harr : series.filterMap id = [] := by
    rw [List.filterMap_eq_nil_iff]
    intro a ha
    rw [h a ha]
    rfl
  unfold robust_range
  simp [harr]

/-- Witness for C8 at a concrete all-missing series. -/
theorem all_missing_series_default_domain_witness :
    (∀ x ∈ ([none, none, none] : List (Option ℚ)), x = none) ∧
      robust_range [none, none, none] false = (0, 1) :=
  ⟨by decide, all_missing_series_default_domain [none, none, none] false
    (by decide)⟩

/-- The eleven `RdYlGn_11` colorbrewer stops used by
`linear.RdYlGn_11.scale(...)`, as branca stores them: RGBA floats in `[0, 1]`
(byte value divided by 255, alpha 1). -/
def RdYlGn_11 : List (ℚ × ℚ × ℚ × ℚ) :=
  [(165/255, 0, 38/255, 1), (215/255, 48/255, 39/255, 1),
   (244/255, 109/255, 67/255, 1), (253/255, 174/255, 97/255, 1),
   (254/255, 224/255, 139/255, 1), (1, 1, 191/255, 1),
   (217/255, 239/255, 139/255, 1), (166/255, 217/255, 106/255, 1),
   (102/255, 189/255, 99/255, 1), (26/255, 152/255, 80/255, 1),
   (0, 104/255, 55/255, 1)]

/-- The index of a scaled colormap: eleven evenly spaced anchors across
`[vmin, vmax]` (branca `LinearColormap.__init__` with `index=None`). -/
def scaleIndex (vmin vmax : ℚ) : List ℚ :=
  (List.range 11).map (fun i : ℕ => vmin + (vmax - vmin) * (i : ℚ) / 10)

/-- branca `LinearColormap.rgba_floats_tuple`: clamp at the two ends of the
index, otherwise interpolate linearly between the two surrounding stops. -/
def rgbaFloats (vmin vmax : ℚ) (x : ℚ) : ℚ × ℚ × ℚ × ℚ :=
  let idx := scaleIndex vmin vmax
  if x ≤ idx.getD 0 0 then RdYlGn_11.getD 0 (0, 0, 0, 0)
  else if idx.getD 10 0 ≤ x then RdYlGn_11.getD 10 (0, 0, 0, 0)
  else
    let i := (idx.filter (fun u => u < x)).length
    let a := idx.getD (i - 1) 0
    let b := idx.getD i 0
    let ca := RdYlGn_11.getD (i - 1) (0, 0, 0, 0)
    let cb := RdYlGn_11.getD i (0, 0, 0, 0)
    let w1 := (b - x) / (b - a)
    let w2 := (x - a) / (b - a)
    (w1 * ca.1 + w2 * cb.1, w1 * ca.2.1 + w2 * cb.2.1,
     w1 * ca.2.2.1 + w2 * cb.2.2.1, w1 * ca.2.2.2 + w2 * cb.2.2.2)

/-- Python `int(...)` on a rational: truncation toward zero. -/
def pyInt (q : ℚ) : ℤ := if 0 ≤ q then Int.floor q else Int.ceil q

/-- branca `rgba_bytes_tuple` component: `int(u * 255.9999)`. -/
def byteOf (u : ℚ) : ℤ := pyInt (u * (2559999 / 10000))

/-- Lower-case hexadecimal digit character. -/
def hexDigitChar (n : ℕ) : Char :=
  if n < 10 then Char.ofNat (48 + n) else Char.ofNat (87 + n)

/-- The two hex digits `'%02x'` produces for a byte value in `[0, 255]`. -/
def hex2 (z : ℤ) : List Char :=
  [hexDigitChar (z.toNat / 16 % 16), hexDigitChar (z.toNat % 16)]

/-- branca `ColorMap.__call__` = `rgba_hex_str`: `'#%02x%02x%02x%02x'` of the
four byte components. -/
def rgbaHexStr (vmin vmax x : ℚ) : String :=
  let c := rgbaFloats vmin vmax x
  String.mk ('#' :: (hex2 (byteOf c.1) ++ hex2 (byteOf c.2.1) ++
    hex2 (byteOf c.2.2.1) ++ hex2 (byteOf c.2.2.2)))

/-- `color_for(metric, val)` from the source, with the metric's global domain
`(vmin, vmax)` made explicit (in the source it is `ranges[metric]`, baked into
`PALETTES[metric]`): missing values get the fixed sentinel `"#cccccc"`, present
values go through the scaled `RdYlGn_11` palette. -/
def color_for (dom : ℚ × ℚ) (val : Option ℚ) : String :=
  match val with
  | none => "#cccccc"
  | some v => rgbaHexStr dom.1 dom.2 v

/-- C7: For every metric (i.e. every domain a palette can be scaled to), the
color mapping applied to a missing value returns the fixed sentinel
`"#cccccc"`, and this sentinel is distinct from every color the palette
produces for any value whatsoever (palette outputs are 9-character
`#rrggbbaa` strings, the sentinel has 7 characters). -/
theorem no_data_sentinel_distinct_from_palette :
    (∀ dom : ℚ × ℚ, color_for dom none = "#cccccc") ∧
      ∀ vmin vmax v : ℚ, rgbaHexStr vmin vmax v ≠ "#cccccc" := by
  refine ⟨fun _ => rfl, fun vmin vmax v h => ?_⟩
  have hlen := congrArg String.length h
  simp [rgbaHexStr, hex2, String.length] at hlen

/-- C3, counterexample: on the four-observation multiset
`{3.00, 4.00, 5.00, 100.00}` the 99.7th-percentile clip does NOT yield a vmax
near 5: linear interpolation at position `0.997 * 3 = 2.991` between the order
statistics 5 and 100 gives `vmax = 99.145`, which is closer to 100 than to 5
(the outlier is 25% of the observations, far above the 0.3% tail the clip
suppresses). -/
theorem outlier_quartet_vmax_near_100_cex :
    (robust_range [some 3, some 4, some 5, some 100] false).2 = 19829/200 ∧
      100 - (robust_range [some 3, some 4, some 5, some 100] false).2 <
        (robust_range [some 3, some 4, some 5, some 100] false).2 - 5 := by
  have h : robust_range [some 3, some 4, some 5, some 100] false
      = (3009/1000, 19829/200) := by
    simp only [robust_range, List.filterMap_cons, id]
    norm_num [quantileLinear, sortAsc, insertSorted]
    simp
    norm_num
  rw [h]
  norm_num

/-- C3, amended: for the input multiset `{3.00, 4.00, 5.00, 100.00}` the
99.7th-percentile clip yields `(vmin, vmax) = (3.009, 99.145)` — a vmax near
100, not near 5, since one outlier among four observations is far more than
the 0.3% tail mass the clip removes — and the outlier value 100 still maps to
a valid color, saturating at the domain's upper edge (it gets exactly the
color of `vmax`, the last palette stop `#006837ff`), rather than producing an
error. -/
theorem outlier_quartet_clip_and_saturation :
    robust_range [some 3, some 4, some 5, some 100] false = (3009/1000, 19829/200) ∧
      color_for (3009/1000, 19829/200) (some 100) = "#006837ff" ∧
      color_for (3009/1000, 19829/200) (some (19829/200)) = "#006837ff" := by
  refine ⟨?_, ?_, ?_⟩
  · simp only [robust_range, List.filterMap_cons, id]
    norm_num [quantileLinear, sortAsc, insertSorted]
    simp
    norm_num
  · have hr : List.range 11 = [0,1,2,3,4,5,6,7,8,9,10] := by decide
    simp only [color_for, rgbaHexStr, rgbaFloats, scaleIndex, RdYlGn_11, hr, List.map]
    norm_num [byteOf, pyInt, hex2, hexDigitChar]
    decide
  · have hr : List.range 11 = [0,1,2,3,4,5,6,7,8,9,10] := by decide
    simp only [color_for, rgbaHexStr, rgbaFloats, scaleIndex, RdYlGn_11, hr, List.map]
    norm_num [byteOf, pyInt, hex2, hexDigitChar]
    decide

/-- `np.round` on a rational value: round half to even (banker's rounding),
otherwise to the nearest integer. -/
def npRound (x : ℚ) : ℤ :=
  if Int.fract x = 1/2 then (if Even ⌊x⌋ then ⌊x⌋ else ⌊x⌋ + 1) else round x

/-- `np.linspace(vmin, vmax, n)`: `n` evenly spaced values from `vmin` to
`vmax` inclusive (for `n = 1` just `vmin`; division by zero in ℚ is zero, which
matches that convention). -/
def linspace (vmin vmax : ℚ) (n : ℕ) : List ℚ :=
  (List.range n).map (fun i : ℕ => vmin + (vmax - vmin) * (i : ℚ) / ((n : ℚ) - 1))

/-- Decimal digits of a natural number, most significant first. -/
def natDigits (n : ℕ) : List ℕ :=
  if n < 10 then [n] else natDigits (n / 10) ++ [n % 10]
decreasing_by exact Nat.div_lt_self (by omega) (by omega)

/-- The character of a decimal digit. -/
def digitChar (d : ℕ) : Char := Char.ofNat (48 + d)

/-- Decimal digit characters of a nonnegative rational with exactly two digits
after the decimal point (the `f"{t:.2f}"` rendering of a nonnegative value that
is an exact multiple of 1/100). -/
def natTwoDecChars (q : ℚ) : List Char :=
  (natDigits ⌊q⌋.toNat).map digitChar ++ '.' ::
    [digitChar ((⌊Int.fract q * 100⌋).toNat / 10 % 10),
     digitChar ((⌊Int.fract q * 100⌋).toNat % 10)]

/-- Python `f"{t:.2f}"` for a value that is an exact multiple of 1/100: sign,
integer part, point, two decimal digits. -/
def formatTwoDec (q : ℚ) : String :=
  if q < 0 then String.mk ('-' :: natTwoDecChars (-q)) else String.mk (natTwoDecChars q)

/-- Python `f"{t:d}"`: plain decimal rendering of an integer. -/
def formatIntStr (z : ℤ) : String :=
  if z < 0 then String.mk ('-' :: (natDigits (-z).toNat).map digitChar)
  else String.mk ((natDigits z.toNat).map digitChar)

/-- The tick/label computation of `make_continuous_legend_html`: raw ticks are
`np.linspace(vmin, vmax, n_ticks)`; in money mode the ticks are
`np.round(raw_ticks * 2) / 2.0` labelled `f"{t:.2f}"`, otherwise
`np.round(raw_ticks).astype(int)` labelled `f"{t:d}"`. -/
def legendTicksLabels (money : Bool) (vmin vmax : ℚ) (n : ℕ) :
    List ℚ × List String :=
  let raw := linspace vmin vmax n
  if money then
    let ticks := raw.map (fun t => (npRound (t * 2) : ℚ) / 2)
    (ticks, ticks.map formatTwoDec)
  else
    (raw.map (fun t => ((npRound t : ℤ) : ℚ)),
     raw.map (fun t => formatIntStr (npRound t)))

theorem round_eq_floor_succ_of_fract_half {x : ℚ} (h : Int.fract x = 1/2) :
    round x = ⌊x⌋ + 1 := by
  rw [round_eq]
  have h2 : x + 1/2 = ((⌊x⌋ + 1 : ℤ) : ℚ) := by
    have := Int.floor_add_fract x
    rw [h] at this
    push_cast
    linarith
  rw [h2, Int.floor_intCast]

theorem npRound_le_round (x : ℚ) : npRound x ≤ round x := by
  unfold npRound
  by_cases h : Int.fract x = 1/2
  · rw [if_pos h, round_eq_floor_succ_of_fract_half h]
    by_cases he : Even ⌊x⌋
    · rw [if_pos he]; omega
    · rw [if_neg he]
  · rw [if_neg h]

theorem round_le_npRound_succ (x : ℚ) : round x - 1 ≤ npRound x := by
  unfold npRound
  by_cases h : Int.fract x = 1/2
  · rw [if_pos h, round_eq_floor_succ_of_fract_half h]
    by_cases he : Even ⌊x⌋
    · rw [if_pos he]; omega
    · rw [if_neg he]; omega
  · rw [if_neg h]; omega

theorem round_mono_rat {x y : ℚ} (h : x ≤ y) : round x ≤ round y := by
  rw [round_eq, round_eq]
  exact Int.floor_mono (by linarith)

theorem npRound_mono {x y : ℚ} (h : x ≤ y) : npRound x ≤ npRound y := by
  by_cases hy : Int.fract y = 1/2 ∧ Even ⌊y⌋
  · have hynp : npRound y = ⌊y⌋ := by simp [npRound, hy.1, hy.2]
    have hyv : y = (⌊y⌋ : ℚ) + 1/2 := by
      have := Int.floor_add_fract y
      rw [hy.1] at this
      linarith
    rcases eq_or_lt_of_le h with rfl | hlt
    · exact le_refl _
    · have h3 : round x ≤ ⌊y⌋ := by
        rw [round_eq]
        have : ⌊x + 1/2⌋ < ⌊y⌋ + 1 := by
          rw [Int.floor_lt]
          push_cast
          linarith [hyv ▸ hlt]
        omega
      calc npRound x ≤ round x := npRound_le_round x
        _ ≤ ⌊y⌋ := h3
        _ = npRound y := hynp.symm
  · have hynp : npRound y = round y := by
      unfold npRound
      by_cases h1 : Int.fract y = 1/2
      · have h2 : ¬ Even ⌊y⌋ := fun he => hy ⟨h1, he⟩
        rw [if_pos h1, if_neg h2, round_eq_floor_succ_of_fract_half h1]
      · rw [if_neg h1]
    calc npRound x ≤ round x := npRound_le_round x
      _ ≤ round y := round_mono_rat h
      _ = npRound y := hynp.symm

theorem abs_npRound_sub_le (x : ℚ) : |(npRound x : ℚ) - x| ≤ 1/2 := by
  unfold npRound
  by_cases h : Int.fract x = 1/2
  · have hx : x = (⌊x⌋ : ℚ) + 1/2 := by
      have := Int.floor_add_fract x
      rw [h] at this
      linarith
    rw [if_pos h]
    by_cases he : Even ⌊x⌋
    · rw [if_pos he, abs_le]
      constructor <;> linarith
    · rw [if_neg he, abs_le]
      push_cast
      constructor <;> linarith
  · rw [if_neg h]
    have := abs_sub_round x
    rw [abs_sub_comm] at this
    exact this

theorem linspace_pairwise_le {vmin vmax : ℚ} (h : vmin ≤ vmax) (n : ℕ) :
    List.Pairwise (· ≤ ·) (linspace vmin vmax n) := by
  unfold linspace
  cases n with
  | zero => simp
  | succ m =>
    refine List.Pairwise.map
      (fun i : ℕ => vmin + (vmax - vmin) * (i : ℚ) / (((m + 1 : ℕ) : ℚ) - 1))
      ?_ (List.pairwise_lt_range (m + 1))
    intro i j hij
    have hd : (0 : ℚ) ≤ vmax - vmin := by linarith
    have hij' : (i : ℚ) ≤ (j : ℚ) := by exact_mod_cast le_of_lt hij
    by_cases hc : ((m + 1 : ℕ) : ℚ) - 1 = 0
    · rw [hc]
      simp
    · have hc' : (0 : ℚ) < ((m + 1 : ℕ) : ℚ) - 1 := by
        push_cast
        push_cast at hc
        have : (0 : ℚ) ≤ (m : ℚ) := by positivity
        rcases eq_or_lt_of_le this with heq | hlt
        · exfalso; apply hc; linarith
        · linarith
      have hnum : (vmax - vmin) * (i : ℚ) ≤ (vmax - vmin) * (j : ℚ) :=
        mul_le_mul_of_nonneg_left hij' hd
      exact add_le_add_left ((div_le_div_iff_of_pos_right hc').mpr hnum) vmin

/-- C9: For every metric (money or rate mode), every domain with
`vmin ≤ vmax`, and every tick count `n`, the sequence of rounded tick values
produced by the legend builder is monotonically non-decreasing from left to
right. -/
theorem legend_ticks_monotone (money : Bool) (vmin vmax : ℚ) (n : ℕ)
    (h : vmin ≤ vmax) :
    List.Pairwise (· ≤ ·) (legendTicksLabels money vmin vmax n).1 := by
  unfold legendTicksLabels
  cases money with
  | true =>
    simp only [if_true]
    refine List.Pairwise.map (fun t : ℚ => (npRound (t * 2) : ℚ) / 2)
      ?_ (linspace_pairwise_le h n)
    intro a b hab
    have h1 : npRound (a * 2) ≤ npRound (b * 2) := npRound_mono (by linarith)
    have h2 : ((npRound (a * 2) : ℤ) : ℚ) ≤ ((npRound (b * 2) : ℤ) : ℚ) := by
      exact_mod_cast h1
    linarith
  | false =>
    simp only [Bool.false_eq_true, if_false]
    refine List.Pairwise.map (fun t : ℚ => ((npRound t : ℤ) : ℚ))
      ?_ (linspace_pairwise_le h n)
    intro a b hab
    show ((npRound a : ℤ) : ℚ) ≤ ((npRound b : ℤ) : ℚ)
    exact_mod_cast npRound_mono hab

/-- Witness for C9 at the concrete legend `(money, 0, 3, 7)`. -/
theorem legend_ticks_monotone_witness :
    (0 : ℚ) ≤ 3 ∧ List.Pairwise (· ≤ ·) (legendTicksLabels true 0 3 7).1 :=
  ⟨by norm_num, legend_ticks_monotone true 0 3 7 (by norm_num)⟩

theorem natDigits_lt_ten (n : ℕ) : ∀ d ∈ natDigits n, d < 10 := by
  induction n using Nat.strong_induction_on with
  | _ n ih =>
    rw [natDigits]
    by_cases h : n < 10
    · rw [if_pos h]
      intro d hd
      rw [List.mem_singleton] at hd
      omega
    · rw [if_neg h]
      intro d hd
      rcases List.mem_append.mp hd with h1 | h2
      · exact ih (n / 10) (Nat.div_lt_self (by omega) (by omega)) d h1
      · rw [List.mem_singleton] at h2
        omega

theorem digitChar_isDigit {d : ℕ} (h : d < 10) : (digitChar d).isDigit := by
  interval_cases d <;> decide

theorem digitChar_mem_isDigit {c : Char} {m : ℕ}
    (h : c ∈ (natDigits m).map digitChar) : c.isDigit := by
  rcases List.mem_map.mp h with ⟨d, hd, rfl⟩
  exact digitChar_isDigit (natDigits_lt_ten m d hd)

theorem formatTwoDec_shape (q : ℚ) :
    '$' ∉ (formatTwoDec q).data ∧
      ∃ pre d1 d2, (formatTwoDec q).data = pre ++ '.' :: [d1, d2] ∧
        '.' ∉ pre ∧ d1.isDigit ∧ d2.isDigit := by
  unfold formatTwoDec
  have hdig : ∀ r : ℚ, '$' ∉ natTwoDecChars r ∧ '.' ∉
      (natDigits ⌊r⌋.toNat).map digitChar ∧
      natTwoDecChars r = (natDigits ⌊r⌋.toNat).map digitChar ++ '.' ::
        [digitChar ((⌊Int.fract r * 100⌋).toNat / 10 % 10),
         digitChar ((⌊Int.fract r * 100⌋).toNat % 10)] := by
    intro r
    refine ⟨?_, ?_, rfl⟩
    · intro hmem
      unfold natTwoDecChars at hmem
      rcases List.mem_append.mp hmem with h1 | h2
      · exact absurd (digitChar_mem_isDigit h1) (by decide)
      · rcases List.mem_cons.mp h2 with h3 | h4
        · exact absurd h3 (by decide)
        · rcases List.mem_cons.mp h4 with h5 | h6
          · exact absurd (h5 ▸ digitChar_isDigit (Nat.mod_lt _ (by omega)) :
              ('$').isDigit) (by decide)
          · rw [List.mem_singleton] at h6
            exact absurd (h6 ▸ digitChar_isDigit (Nat.mod_lt _ (by omega)) :
              ('$').isDigit) (by decide)
    · intro hmem
      exact absurd (digitChar_mem_isDigit hmem) (by decide)
  by_cases h : q < 0
  · rw [if_pos h]
    refine ⟨?_, '-' :: (natDigits ⌊-q⌋.toNat).map digitChar,
      digitChar ((⌊Int.fract (-q) * 100⌋).toNat / 10 % 10),
      digitChar ((⌊Int.fract (-q) * 100⌋).toNat % 10), ?_, ?_, ?_, ?_⟩
    · intro hmem
      rcases List.mem_cons.mp hmem with h1 | h2
      · exact absurd h1 (by decide)
      · exact (hdig (-q)).1 h2
    · show '-' :: natTwoDecChars (-q) = _
      rw [(hdig (-q)).2.2]
      rfl
    · intro hmem
      rcases List.mem_cons.mp hmem with h1 | h2
      · exact absurd h1 (by decide)
      · exact (hdig (-q)).2.1 h2
    · exact digitChar_isDigit (Nat.mod_lt _ (by omega))
    · exact digitChar_isDigit (Nat.mod_lt _ (by omega))
  · rw [if_neg h]
    refine ⟨(hdig q).1, (natDigits ⌊q⌋.toNat).map digitChar,
      digitChar ((⌊Int.fract q * 100⌋).toNat / 10 % 10),
      digitChar ((⌊Int.fract q * 100⌋).toNat % 10), ?_, (hdig q).2.1, ?_, ?_⟩
    · exact (hdig q).2.2
    · exact digitChar_isDigit (Nat.mod_lt _ (by omega))
    · exact digitChar_isDigit (Nat.mod_lt _ (by omega))

theorem formatIntStr_plain (z : ℤ) :
    '$' ∉ (formatIntStr z).data ∧ '.' ∉ (formatIntStr z).data := by
  unfold formatIntStr
  have hdig : ∀ m : ℕ, '$' ∉ (natDigits m).map digitChar ∧
      '.' ∉ (natDigits m).map digitChar := by
    intro m
    constructor <;> intro hmem <;>
      exact absurd (digitChar_mem_isDigit hmem) (by decide)
  by_cases h : z < 0
  · rw [if_pos h]
    constructor <;> intro hmem <;> rcases List.mem_cons.mp hmem with h1 | h2
    · exact absurd h1 (by decide)
    · exact (hdig _).1 h2
    · exact absurd h1 (by decide)
    · exact (hdig _).2 h2
  · rw [if_neg h]
    exact hdig _

/-- C4, counterexample: for a money-mode legend (as built for `avg_tip` and
`med_tip` with `n_ticks = 7`), e.g. over the domain `(0, 3)`, the tick labels
are `"0.00", "0.50", ..., "3.00"` — two decimal places but NO currency marker
anywhere in any label ('$' appears only in the separate caption), refuting the
claim that each tick label carries a currency marker. -/
theorem money_tick_label_lacks_currency_marker_cex :
    (legendTicksLabels true 0 3 7).2 =
      ["0.00", "0.50", "1.00", "1.50", "2.00", "2.50", "3.00"] ∧
      ∀ l ∈ (legendTicksLabels true 0 3 7).2, '$' ∉ l.data := by
  have hlab : (legendTicksLabels true 0 3 7).2 =
      ["0.00", "0.50", "1.00", "1.50", "2.00", "2.50", "3.00"] := by
    have hlin : linspace 0 3 7 = [0, 1/2, 1, 3/2, 2, 5/2, 3] := by
      have hr : List.range 7 = [0, 1, 2, 3, 4, 5, 6] := by decide
      simp only [linspace, hr, List.map]
      norm_num
    have hticks : (legendTicksLabels true 0 3 7).1
        = [0, 1/2, 1, 3/2, 2, 5/2, 3] := by
      show (linspace 0 3 7).map (fun t : ℚ => (npRound (t * 2) : ℚ) / 2) = _
      rw [hlin]
      simp only [List.map]
      norm_num [npRound, Int.fract, round_eq]
    show (legendTicksLabels true 0 3 7).1.map formatTwoDec = _
    rw [hticks]
    simp only [List.map]
    have hsmall : ∀ m : ℕ, m < 10 → natDigits m = [m] := by
      intro m h
      rw [natDigits, if_pos h]
    norm_num [formatTwoDec, natTwoDecChars, Int.fract, hsmall, digitChar]
    decide
  refine ⟨hlab, ?_⟩
  rw [hlab]
  decide

/-- C4, amended: for every money-valued metric, each legend tick value is the
raw evenly spaced value rounded to a nearest half-unit (a half-integer within
1/4 of the raw value; numpy rounds halves to even), and each label is that
value formatted with exactly two decimal places but WITHOUT a currency marker
(the currency marker appears only in the legend caption); for the rate metric,
each tick is the raw value rounded to a nearest integer (within 1/2) and the
label is a plain count (no decimal point, no currency marker). -/
theorem legend_tick_label_format (vmin vmax : ℚ) (n : ℕ) :
    List.Forall₂ (fun t r => (∃ k : ℤ, t = (k : ℚ) / 2) ∧ |t - r| ≤ 1/4)
      (legendTicksLabels true vmin vmax n).1 (linspace vmin vmax n) ∧
    (legendTicksLabels true vmin vmax n).2 =
      (legendTicksLabels true vmin vmax n).1.map formatTwoDec ∧
    (∀ l ∈ (legendTicksLabels true vmin vmax n).2,
      '$' ∉ l.data ∧ ∃ pre d1 d2, l.data = pre ++ '.' :: [d1, d2] ∧
        '.' ∉ pre ∧ d1.isDigit ∧ d2.isDigit) ∧
    List.Forall₂ (fun t r => (∃ k : ℤ, t = (k : ℚ)) ∧ |t - r| ≤ 1/2)
      (legendTicksLabels false vmin vmax n).1 (linspace vmin vmax n) ∧
    (∀ l ∈ (legendTicksLabels false vmin vmax n).2,
      '$' ∉ l.data ∧ '.' ∉ l.data) := by
  refine ⟨?_, ?_, ?_, ?_, ?_⟩
  · show List.Forall₂ _ ((linspace vmin vmax n).map
      (fun t : ℚ => (npRound (t * 2) : ℚ) / 2)) (linspace vmin vmax n)
    rw [List.forall₂_map_left_iff, List.forall₂_same]
    intro r _
    refine ⟨⟨npRound (r * 2), rfl⟩, ?_⟩
    have h := abs_npRound_sub_le (r * 2)
    rw [abs_le] at h ⊢
    constructor <;> [linarith [h.1]; linarith [h.2]]
  · rfl
  · intro l hl
    show '$' ∉ l.data ∧ _
    rcases List.mem_map.mp hl with ⟨t, _, rfl⟩
    exact formatTwoDec_shape t
  · show List.Forall₂ _ ((linspace vmin vmax n).map
      (fun t : ℚ => ((npRound t : ℤ) : ℚ))) (linspace vmin vmax n)
    rw [List.forall₂_map_left_iff, List.forall₂_same]
    intro r _
    exact ⟨⟨npRound r, rfl⟩, abs_npRound_sub_le r⟩
  · intro l hl
    rcases List.mem_map.mp hl with ⟨t, _, rfl⟩
    exact formatIntStr_plain (npRound t)

/-- A year's input table, as the ingestion loop sees it: named columns of
optional numeric observations. -/
def Table := List (String × List (Option ℚ))

/-- The column names of a table (`gdf.columns`). -/
def Table.cols (t : Table) : List String := t.map Prod.fst

/-- Column access `gdf[name]` (first column with that name, if any). -/
def Table.col (t : Table) (name : String) : Option (List (Option ℚ)) :=
  match t with
  | [] => none
  | (n, s) :: rest => if n = name then some s else Table.col rest name

/-- `count_col = "num_trips" if "num_trips" in gdf.columns else "num_tips"`
from the source. -/
def count_col (t : Table) : String :=
  if "num_trips" ∈ t.cols then "num_trips" else "num_tips"

/-- The series used for the tooltip trip counts (`gdf[count_col]`, the input
series of the `num_trips_s` formatting). -/
def countSeries (t : Table) : Option (List (Option ℚ)) :=
  t.col (count_col t)

theorem col_some_mem_cols {t : Table} {name : String} {s : List (Option ℚ)}
    (h : t.col name = some s) : name ∈ t.cols := by
  induction t with
  | nil => simp [Table.col] at h
  | cons hd tl ih =>
    rw [Table.col] at h
    by_cases he : hd.1 = name
    · exact he ▸ List.mem_cons_self _ _
    · rw [if_neg he] at h
      exact List.mem_cons_of_mem _ (ih h)

/-- C10: the trip-count column is resolved with a fixed precedence —
`num_trips` is used whenever it is present and `num_tips` only when
`num_trips` is absent; in particular when both columns appear in the same
year's table, the tooltip trip counts are read from the `num_trips` column and
`num_tips` is ignored. -/
theorem num_trips_precedence (t : Table) (a b : List (Option ℚ))
    (ha : t.col "num_trips" = some a) (_hb : t.col "num_tips" = some b) :
    count_col t = "num_trips" ∧ countSeries t = some a := by
  have hmem : "num_trips" ∈ t.cols := col_some_mem_cols ha
  have hcc : count_col t = "num_trips" := by
    unfold count_col
    rw [if_pos hmem]
  exact ⟨hcc, by rw [countSeries, hcc, ha]⟩

/-- Witness for C10 at a concrete table carrying both count columns. -/
theorem num_trips_precedence_witness :
    (Table.col [("num_trips", [some 7]), ("num_tips", [some 9])] "num_trips"
        = some [some 7]) ∧
      (Table.col [("num_trips", [some 7]), ("num_tips", [some 9])] "num_tips"
        = some [some 9]) ∧
      count_col [("num_trips", [some 7]), ("num_tips", [some 9])] = "num_trips" ∧
      countSeries [("num_trips", [some 7]), ("num_tips", [some 9])]
        = some [some 7] := by
  refine ⟨by decide, by decide, ?_⟩
  exact num_trips_precedence _ [some 7] [some 9] (by decide) (by decide)

/-! ### The client-side controller (`showYearAndMetric` and friends) -/

/-- One feature layer of a year's `FeatureGroup`, carrying the GeoJSON
properties written by the scene builder (`color_avg_tip`, `color_med_tip`,
`color_avg_rate`, `cur_color`), the Leaflet paint state set through
`setStyle`, and the hover-handler bookkeeping of
`attachHighlightHandlers` (`featLayer.on(...)` registrations and the
`_highlightBound` flag). -/
structure Feature where
  color_avg_tip : String
  color_med_tip : String
  color_avg_rate : String
  cur_color : String
  displayedFill : String
  mouseoverHandlers : Nat
  mouseoutHandlers : Nat
  highlightBound : Bool
deriving DecidableEq, Repr

/-- `props["color_" + metric]`. -/
def Feature.colorOf (f : Feature) : Metric → String
  | Metric.avg_tip => f.color_avg_tip
  | Metric.med_tip => f.color_med_tip
  | Metric.avg_rate => f.color_avg_rate

/-- `props[colorProp] || "#cccccc"` — the empty string is the only falsy
JavaScript string, anything else passes through. -/
def fillFor (f : Feature) (m : Metric) : String :=
  if f.colorOf m = "" then "#cccccc" else f.colorOf m

/-- One step of `recolorLayerByMetric`'s `applyToLayer` on a leaf feature:
`setStyle({fillColor: fill})` and `props.cur_color = fill`. -/
def recolorFeature (m : Metric) (f : Feature) : Feature :=
  { f with displayedFill := fillFor f m, cur_color := fillFor f m }

/-- One step of `attachHighlightHandlers` on a feature layer: skip if
`_highlightBound` is already set, otherwise register one `mouseover` and one
`mouseout` handler and set the flag. -/
def attachFeature (f : Feature) : Feature :=
  if f.highlightBound then f
  else { f with mouseoverHandlers := f.mouseoverHandlers + 1,
                mouseoutHandlers := f.mouseoutHandlers + 1,
                highlightBound := true }

/-- The browser-resident state the controller mutates: the per-year feature
layers (`YEAR_TO_VARNAME` plus the layer objects behind it), which year-layer
is attached to the map, and which metric's legend is in the document. -/
structure MapState where
  layers : List (Nat × List Feature)
  attached : Option Nat
  legend : Metric
deriving DecidableEq, Repr

/-- Layer lookup `window[YEAR_TO_VARNAME[year]]`. -/
def getLayer (y : Nat) : List (Nat × List Feature) → Option (List Feature)
  | [] => none
  | (y', l) :: rest => if y = y' then some l else getLayer y rest

/-- Replace the stored feature list of year `y`. -/
def setLayer (y : Nat) (v : List Feature) :
    List (Nat × List Feature) → List (Nat × List Feature)
  | [] => []
  | (y', l) :: rest =>
    if y = y' then (y', v) :: setLayer y v rest else (y', l) :: setLayer y v rest

/-- `showYearAndMetric(mapObj, metric, year)`: `hideAllYears` detaches every
attached year layer; then, if the requested year's layer exists, it is
attached, recolored by the metric (`recolorLayerByMetric`), has hover handlers
(re-)attached (`attachHighlightHandlers`), and the metric's legend replaces
the current one (`addLegend`); if the layer does not exist the controller only
reports `console.error` (see `stepReportsError`). -/
def step (s : MapState) (m : Metric) (y : Nat) : MapState :=
  let s1 : MapState := { s with attached := none }
  match getLayer y s1.layers with
  | some lyr =>
      { s1 with
        attached := some y
        layers := setLayer y (((lyr.map (recolorFeature m)).map attachFeature))
          s1.layers
        legend := m }
  | none => s1

/-- Whether `showYearAndMetric(mapObj, m, y)` takes the `console.error`
branch ("Layer not found for year ..."). -/
def stepReportsError (s : MapState) (_m : Metric) (y : Nat) : Bool :=
  (getLayer y s.layers).isNone

theorem getLayer_setLayer (y y' : Nat) (v : List Feature)
    (ls : List (Nat × List Feature)) :
    getLayer y' (setLayer y v ls) =
      if y' = y then (getLayer y' ls).map (fun _ => v) else getLayer y' ls := by
  induction ls with
  | nil => simp [getLayer, setLayer]
  | cons hd tl ih =>
    obtain ⟨a, l⟩ := hd
    by_cases h1 : y = a
    · subst h1
      by_cases h2 : y' = y
      · subst h2
        simp [setLayer, getLayer]
      · simp [setLayer, getLayer, h2, ih]
    · by_cases h2 : y' = a
      · subst h2
        have hne : ¬ y' = y := fun he => h1 he.symm
        simp [setLayer, getLayer, h1, hne]
      · simp [setLayer, getLayer, h1, h2, ih]

theorem setLayer_setLayer (y : Nat) (v w : List Feature)
    (ls : List (Nat × List Feature)) :
    setLayer y v (setLayer y w ls) = setLayer y v ls := by
  induction ls with
  | nil => simp [setLayer]
  | cons hd tl ih =>
    obtain ⟨a, l⟩ := hd
    by_cases h : y = a
    · subst h
      simp [setLayer, ih]
    · simp [setLayer, h, ih]

theorem attachFeature_recolor_attachFeature_recolor (m : Metric) (f : Feature) :
    attachFeature (recolorFeature m (attachFeature (recolorFeature m f)))
      = attachFeature (recolorFeature m f) := by
  cases f with
  | mk cat cmt car cur fill mov mot bound =>
    cases bound <;>
      simp [recolorFeature, attachFeature, fillFor, Feature.colorOf]

/-- C5: Entering the same ViewState `(m, y)` twice in a row produces exactly
the same state (attached Layer, feature colors and paint, legend, hover
handlers) as entering it once; in particular the second entry registers no
additional hover handlers on any feature, thanks to the per-feature
`_highlightBound` guard. -/
theorem reenter_same_view_state_idempotent (s : MapState) (m : Metric)
    (y : Nat) : step (step s m y) m y = step s m y := by
  obtain ⟨ls, att, leg⟩ := s
  cases h : getLayer y ls with
  | none => simp [step, h]
  | some lyr =>
    have key : ∀ x : Feature,
        attachFeature (recolorFeature m (attachFeature (recolorFeature m x)))
          = attachFeature (recolorFeature m x) :=
      attachFeature_recolor_attachFeature_recolor m
    simp [step, h, getLayer_setLayer, setLayer_setLayer, List.map_map,
      Function.comp_def, key]

/-- A concrete feature used by the runtime counterexamples and witnesses. -/
def sampleFeature : Feature :=
  { color_avg_tip := "#1a9850ff", color_med_tip := "#d73027ff",
    color_avg_rate := "#fee08bff", cur_color := "#1a9850ff",
    displayedFill := "#1a9850ff", mouseoverHandlers := 0,
    mouseoutHandlers := 0, highlightBound := false }

/-- C1, counterexample: with year 2015's layer attached and a transition
requesting year 2099 (for which no Layer exists), `showYearAndMetric` runs
`hideAllYears` BEFORE the existence check, so the previously attached Layer
does NOT remain attached — the view is blanked (no attached layer), refuting
the claim that the previously attached Layer stays attached. The error is
still reported and colors/legend are untouched. -/
theorem missing_year_detaches_previous_layer_cex :
    (MapState.attached
        { layers := [(2015, [sampleFeature])], attached := some 2015,
          legend := Metric.avg_tip } = some 2015) ∧
      getLayer 2099 [(2015, [sampleFeature])] = none ∧
      stepReportsError
        { layers := [(2015, [sampleFeature])], attached := some 2015,
          legend := Metric.avg_tip } Metric.avg_tip 2099 = true ∧
      (step
        { layers := [(2015, [sampleFeature])], attached := some 2015,
          legend := Metric.avg_tip } Metric.avg_tip 2099).attached
        ≠ some 2015 := by
  refine ⟨rfl, by decide, by decide, ?_⟩
  simp [step, getLayer]

/-- C1, amended: when a ViewState transition requests a year for which no
Layer exists, the controller reports the error (`console.error`) and leaves
the feature colors (all layers' stored state) and the legend unchanged —
but, because `hideAllYears` runs before the existence check, the previously
attached Layer is detached rather than remaining attached: the map is left
with no attached year-layer. -/
theorem missing_year_reports_and_preserves_colors_legend (s : MapState)
    (m : Metric) (y : Nat) (h : getLayer y s.layers = none) :
    stepReportsError s m y = true ∧
      (step s m y).layers = s.layers ∧
      (step s m y).legend = s.legend ∧
      (step s m y).attached = none := by
  obtain ⟨ls, att, leg⟩ := s
  simp only [stepReportsError] at *
  simp [step, h]

/-- Witness for C1's amended theorem at a concrete state and missing year. -/
theorem missing_year_reports_witness :
    (getLayer 2099 [(2015, [sampleFeature])] = none) ∧
      (stepReportsError
          { layers := [(2015, [sampleFeature])], attached := some 2015,
            legend := Metric.avg_tip } Metric.med_tip 2099 = true ∧
        (step
            { layers := [(2015, [sampleFeature])], attached := some 2015,
              legend := Metric.avg_tip } Metric.med_tip 2099).layers
          = [(2015, [sampleFeature])] ∧
        (step
            { layers := [(2015, [sampleFeature])], attached := some 2015,
              legend := Metric.avg_tip } Metric.med_tip 2099).legend
          = Metric.avg_tip ∧
        (step
            { layers := [(2015, [sampleFeature])], attached := some 2015,
              legend := Metric.avg_tip } Metric.med_tip 2099).attached
          = none) :=
  ⟨by decide,
    missing_year_reports_and_preserves_colors_legend
      { layers := [(2015, [sampleFeature])], attached := some 2015,
        legend := Metric.avg_tip } Metric.med_tip 2099 (by decide)⟩

/-- The controller's full runtime state: the mutable map state plus the
current ViewState `(metric, year)` held by the radio groups. -/
structure Ctrl where
  ms : MapState
  metric : Metric
  year : Nat
deriving DecidableEq, Repr

/-- One ViewState transition: the change handler reads the radios (the new
pair `p`) and calls `showYearAndMetric(mapObj, curMetric(), curYear())`. -/
def ctrlStep (c : Ctrl) (p : Metric × Nat) : Ctrl :=
  { ms := step c.ms p.1 p.2, metric := p.1, year := p.2 }

/-- A finite sequence of ViewState transitions. -/
def run (c : Ctrl) (ts : List (Metric × Nat)) : Ctrl := ts.foldl ctrlStep c

/-- The boot transition (`wireControls` synthesizes one entry into the default
ViewState `(avg_tip, default_year)` on load) followed by any finite sequence
of user transitions. -/
def bootRun (init : MapState) (y0 : Nat) (ts : List (Metric × Nat)) : Ctrl :=
  run { ms := init, metric := Metric.avg_tip, year := y0 }
    ((Metric.avg_tip, y0) :: ts)

/-- The scene builder's guarantee on every feature it emits: the three
precomputed color properties are non-empty strings (`color_for` returns either
the sentinel or a palette hex string, never the empty string). -/
def featureWF (f : Feature) : Prop :=
  f.color_avg_tip ≠ "" ∧ f.color_med_tip ≠ "" ∧ f.color_avg_rate ≠ ""

/-- Well-formedness of a map state: every stored feature satisfies
`featureWF`. -/
def WF (s : MapState) : Prop := ∀ p ∈ s.layers, ∀ f ∈ p.2, featureWF f

theorem featureWF_colorOf_ne {f : Feature} (h : featureWF f) (m : Metric) :
    f.colorOf m ≠ "" := by
  cases m
  · exact h.1
  · exact h.2.1
  · exact h.2.2

theorem colorOf_attachFeature (f : Feature) (m : Metric) :
    (attachFeature f).colorOf m = f.colorOf m := by
  unfold attachFeature
  split <;> cases m <;> rfl

theorem colorOf_recolorFeature (f : Feature) (m m' : Metric) :
    (recolorFeature m f).colorOf m' = f.colorOf m' := by
  cases m' <;> rfl

theorem cur_color_attachFeature (f : Feature) :
    (attachFeature f).cur_color = f.cur_color := by
  unfold attachFeature
  split <;> rfl

theorem fillFor_attach_recolor (m m' : Metric) (f : Feature) :
    fillFor (attachFeature (recolorFeature m f)) m' = fillFor f m' := by
  unfold fillFor
  rw [colorOf_attachFeature, colorOf_recolorFeature]

theorem getLayer_mem {y : Nat} {lyr : List Feature}
    {ls : List (Nat × List Feature)} (h : getLayer y ls = some lyr) :
    (y, lyr) ∈ ls := by
  induction ls with
  | nil => simp [getLayer] at h
  | cons hd tl ih =>
    obtain ⟨a, l⟩ := hd
    rw [getLayer] at h
    by_cases he : y = a
    · rw [if_pos he] at h
      subst he
      rw [Option.some_inj] at h
      subst h
      exact List.mem_cons_self _ _
    · rw [if_neg he] at h
      exact List.mem_cons_of_mem _ (ih h)

theorem mem_setLayer {p : Nat × List Feature} {y : Nat} {v : List Feature}
    {ls : List (Nat × List Feature)} (h : p ∈ setLayer y v ls) :
    p.2 = v ∨ p ∈ ls := by
  induction ls with
  | nil => simp [setLayer] at h
  | cons hd tl ih =>
    obtain ⟨a, l⟩ := hd
    rw [setLayer] at h
    by_cases he : y = a
    · rw [if_pos he] at h
      rcases List.mem_cons.mp h with h1 | h2
      · left
        rw [h1]
      · rcases ih h2 with h3 | h4
        · exact Or.inl h3
        · exact Or.inr (List.mem_cons_of_mem _ h4)
    · rw [if_neg he] at h
      rcases List.mem_cons.mp h with h1 | h2
      · exact Or.inr (h1 ▸ List.mem_cons_self _ _)
      · rcases ih h2 with h3 | h4
        · exact Or.inl h3
        · exact Or.inr (List.mem_cons_of_mem _ h4)

theorem WF_step {s : MapState} (hwf : WF s) (m : Metric) (y : Nat) :
    WF (step s m y) := by
  obtain ⟨ls, att, leg⟩ := s
  cases h : getLayer y ls with
  | none =>
    intro p hp f hf
    simp only [step, h] at hp
    exact hwf p hp f hf
  | some lyr =>
    intro p hp f hf
    simp only [step, h] at hp
    rcases mem_setLayer hp with h1 | h2
    · rw [h1] at hf
      rcases List.mem_map.mp hf with ⟨g1, hg1, rfl⟩
      rcases List.mem_map.mp hg1 with ⟨g, hg, rfl⟩
      have hgwf : featureWF g := hwf (y, lyr) (getLayer_mem h) g hg
      refine ⟨?_, ?_, ?_⟩
      · show (attachFeature (recolorFeature m g)).colorOf Metric.avg_tip ≠ ""
        rw [colorOf_attachFeature, colorOf_recolorFeature]
        exact hgwf.1
      · show (attachFeature (recolorFeature m g)).colorOf Metric.med_tip ≠ ""
        rw [colorOf_attachFeature, colorOf_recolorFeature]
        exact hgwf.2.1
      · show (attachFeature (recolorFeature m g)).colorOf Metric.avg_rate ≠ ""
        rw [colorOf_attachFeature, colorOf_recolorFeature]
        exact hgwf.2.2
    · exact hwf p h2 f hf

/-- The controller invariant: on the attached layer, every feature's
`cur_color` property equals `props["color_" + metric] || "#cccccc"` for the
current ViewState metric. -/
def InvP (c : Ctrl) : Prop :=
  ∀ y lyr, c.ms.attached = some y → getLayer y c.ms.layers = some lyr →
    ∀ f ∈ lyr, f.cur_color = fillFor f c.metric

theorem invP_ctrlStep (c : Ctrl) (p : Metric × Nat) : InvP (ctrlStep c p) := by
  obtain ⟨⟨ls, att, leg⟩, cm, cy⟩ := c
  obtain ⟨m, y⟩ := p
  intro y' lyr' h1 h2 f hf
  cases h : getLayer y ls with
  | none => simp [ctrlStep, step, h] at h1
  | some lyr =>
    simp only [ctrlStep, step, h, Option.some_inj] at h1 h2
    subst h1
    rw [getLayer_setLayer, if_pos rfl, h, Option.map_some'] at h2
    rw [Option.some_inj] at h2
    subst h2
    rcases List.mem_map.mp hf with ⟨g1, hg1, rfl⟩
    rcases List.mem_map.mp hg1 with ⟨g, _, rfl⟩
    show (attachFeature (recolorFeature m g)).cur_color = _
    rw [cur_color_attachFeature]
    show fillFor g m = fillFor (attachFeature (recolorFeature m g)) m
    rw [fillFor_attach_recolor]

theorem invP_run (ts : List (Metric × Nat)) (c : Ctrl) (h : InvP c) :
    InvP (run c ts) := by
  induction ts generalizing c with
  | nil => exact h
  | cons t ts ih => exact ih (ctrlStep c t) (invP_ctrlStep c t)

theorem WF_run (ts : List (Metric × Nat)) (c : Ctrl) (h : WF c.ms) :
    WF (run c ts).ms := by
  induction ts generalizing c with
  | nil => exact h
  | cons t ts ih => exact ih (ctrlStep c t) (WF_step h t.1 t.2)

/-- C2: After any finite sequence of ViewState transitions starting from the
boot transition, for every feature in the currently attached (visible) Layer,
its `cur_color` property equals its precomputed color for the active metric
(the `color_<active_metric>` property) — assuming, as the scene builder
guarantees, that the precomputed color strings of the initial state are
non-empty. -/
theorem cur_color_matches_active_metric_after_transitions (init : MapState)
    (y0 : Nat) (ts : List (Metric × Nat)) (hwf : WF init) :
    ∀ y lyr, (bootRun init y0 ts).ms.attached = some y →
      getLayer y (bootRun init y0 ts).ms.layers = some lyr →
      ∀ f ∈ lyr, f.cur_color = f.colorOf (bootRun init y0 ts).metric := by
  intro y lyr h1 h2 f hf
  have hinv : InvP (bootRun init y0 ts) := by
    unfold bootRun run
    rw [List.foldl_cons]
    exact invP_run ts _ (invP_ctrlStep _ _)
  have hwf' : WF (bootRun init y0 ts).ms := by
    unfold bootRun run
    rw [List.foldl_cons]
    exact WF_run ts _ (WF_step hwf _ _)
  have hcur := hinv y lyr h1 h2 f hf
  have hne : f.colorOf (bootRun init y0 ts).metric ≠ "" :=
    featureWF_colorOf_ne
      (hwf' (y, lyr) (getLayer_mem h2) f hf) _
  rw [hcur, fillFor, if_neg hne]

/-- The feature of `sampleFeature`'s layer after booting into
`(avg_tip, 2015)` and then selecting `med_tip`: recolored to the `med_tip`
precomputed color, hover handlers bound exactly once. -/
def sampleFeatureAfter : Feature :=
  { color_avg_tip := "#1a9850ff", color_med_tip := "#d73027ff",
    color_avg_rate := "#fee08bff", cur_color := "#d73027ff",
    displayedFill := "#d73027ff", mouseoverHandlers := 1,
    mouseoutHandlers := 1, highlightBound := true }

/-- The initial map state used by the C2 witness: one year layer (2015) with
one well-formed feature, nothing attached yet. -/
def sampleInit : MapState :=
  { layers := [(2015, [sampleFeature])], attached := none,
    legend := Metric.avg_tip }

/-- Witness for C2 on a concrete boot-then-select-med_tip run. -/
theorem cur_color_matches_active_metric_witness :
    WF sampleInit ∧
      (bootRun sampleInit 2015 [(Metric.med_tip, 2015)]).ms.attached
        = some 2015 ∧
      getLayer 2015 (bootRun sampleInit 2015
          [(Metric.med_tip, 2015)]).ms.layers = some [sampleFeatureAfter] ∧
      sampleFeatureAfter.cur_color = sampleFeatureAfter.colorOf
        (bootRun sampleInit 2015 [(Metric.med_tip, 2015)]).metric := by
  have hwf : WF sampleInit := by
    intro pp hp f hf
    simp only [sampleInit, List.mem_singleton] at hp
    subst hp
    simp only [List.mem_singleton] at hf
    subst hf
    exact ⟨by decide, by decide, by decide⟩
  refine ⟨hwf, by decide, by decide, ?_⟩
  exact cur_color_matches_active_metric_after_transitions sampleInit 2015
    [(Metric.med_tip, 2015)] hwf 2015 [sampleFeatureAfter] (by decide)
    (by decide) sampleFeatureAfter (by decide)

end Heatmap
